import Mathlib

/-!
Verification of the TimeGPT response-interception and delivery pipeline.

This file shallowly embeds the two runtime components of the repository:

* the Interceptor (`src/interceptor` variant shipped as the MAIN-world
  script): a wrapper around `window.fetch` that classifies URLs, extracts
  timestamp records from JSON response bodies and from a tapped SSE
  stream, merges them into two page-lifetime buffers and broadcasts every
  non-empty batch via `window.postMessage`;
* the Presenter (`src/content.ts`): a listener that merges broadcast
  batches into its two record maps and signals the renderer when a batch
  contained a previously unseen key.

JavaScript runtime values that can appear in a parsed JSON body are
embedded as `JValue`; `undefined` (an absent property) is represented by
`Option.none` at use sites.  JSON text parsing itself (`response.json()`,
`JSON.parse`) is abstracted: a body is carried as `Option JValue`, `none`
standing for a parse failure (a rejected promise / thrown exception).
JavaScript objects and ES Maps are embedded as association lists with
overwrite-in-place insertion, which reproduces both `Object.assign` and
`Map.set` semantics including iteration order.
-/

/-- A JavaScript value occurring in a parsed JSON document.  Numbers are
embedded as integers: every numeric field the interceptor touches is
only copied, compared to `null`, or tested for truthiness, so the exact
numeric domain is irrelevant to the proofs. -/
inductive JValue where
  | null : JValue
  | bool : Bool → JValue
  | num : Int → JValue
  | str : String → JValue
  | arr : List JValue → JValue
  | obj : List (String × JValue) → JValue

/-- First binding of key `k` in a JS object's field list (JSON-parsed
objects never carry duplicate keys). -/
def lookupField (fs : List (String × JValue)) (k : String) : Option JValue :=
  match fs with
  | [] => none
  | (k', v) :: t => if k' = k then some v else lookupField t k

/-- JavaScript truthiness of a value. -/
def jsTruthy : JValue → Bool
  | .null => false
  | .bool b => b
  | .num n => n ≠ 0
  | .str s => s ≠ ""
  | .arr _ => true
  | .obj _ => true

/-- Truthiness of a possibly-undefined value (`none` = `undefined`). -/
def jsTruthyOpt : Option JValue → Bool
  | none => false
  | some v => jsTruthy v

/-- The JavaScript loose test `x == null`, true exactly for `null` and
`undefined`. -/
def jsLooseNull : Option JValue → Bool
  | none => true
  | some .null => true
  | some _ => false

/-- `x || null` with `null` encoded as `none`: keep a truthy value,
otherwise store `null`. -/
def jsOrNull (o : Option JValue) : Option JValue :=
  if jsTruthyOpt o then o else none

/-- Optional-chained property access `base?.k` on a possibly-undefined
base: `undefined` on `null`/`undefined`/primitive bases, field lookup on
objects.  Also used for plain `.k` access at sites where the base is
known to be non-null, where the two coincide. -/
def jsChain (o : Option JValue) (k : String) : Option JValue :=
  match o with
  | none => none
  | some .null => none
  | some (.obj fs) => lookupField fs k
  | some _ => none

/-- Plain property access `base.k`, which throws a `TypeError` on a
`null` base (modelled as `Except.error`), yields `undefined` on other
primitives, and looks the field up on objects. -/
def jsMember (v : JValue) (k : String) : Except Unit (Option JValue) :=
  match v with
  | .null => .error ()
  | .obj fs => .ok (lookupField fs k)
  | _ => .ok none

/-- The strict comparison `x === "s"` for a possibly-undefined `x`. -/
def jsStrictEqStr (o : Option JValue) (s : String) : Bool :=
  match o with
  | some (.str t) => t = s
  | _ => false

mutual

/-- JavaScript `ToString` of a value used as a computed property key
(`obj[x] = ...`).  Every key the interceptor actually computes is a
string already; the other cases follow `String(x)`. -/
def jsPropKey : JValue → String
  | .str s => s
  | .num n => toString n
  | .bool b => if b then "true" else "false"
  | .null => "null"
  | .obj _ => "[object Object]"
  | .arr xs => String.intercalate "," (jsPropKeyList xs)

/-- `Array.prototype.toString` stringifies each element, rendering a
`null` element as the empty string. -/
def jsPropKeyList : List JValue → List String
  | [] => []
  | .null :: t => "" :: jsPropKeyList t
  | v :: t => jsPropKey v :: jsPropKeyList t

end

/-- `Object.entries x` for the truthy values the extraction loops are
handed: an object's own fields in order, an array's elements keyed by
index, a string's characters keyed by index, and no entries for other
primitives. -/
def jsEntries : JValue → List (String × JValue)
  | .obj fs => fs
  | .arr xs => (xs.enum.map fun p => (toString p.1, p.2))
  | .str s => (s.data.enum.map fun p => (toString p.1, JValue.str (String.singleton p.2)))
  | _ => []

/-! ## Association-list maps with JS object / ES Map insertion semantics -/

/-- A JS object or ES Map viewed as an ordered key-value list. -/
abbrev AListMap (α : Type) : Type := List (String × α)

/-- `m[k] = v` on a JS object, or `m.set(k, v)` on an ES Map: an existing
key keeps its position and gets the new value, a new key is appended. -/
def insertOv {α : Type} (k : String) (v : α) : AListMap α → AListMap α
  | [] => [(k, v)]
  | (k', v') :: t => if k' = k then (k, v) :: t else (k', v') :: insertOv k v t

/-- Value at key `k` (`m[k]` / `m.get(k)`), `none` when absent. -/
def lookupA {α : Type} (k : String) : AListMap α → Option α
  | [] => none
  | (k', v) :: t => if k' = k then some v else lookupA k t

/-- `k in m` / `m.has(k)`. -/
def containsKey {α : Type} (k : String) (m : AListMap α) : Bool :=
  (lookupA k m).isSome

/-- `Object.keys m` in insertion order. -/
def keysList {α : Type} (m : AListMap α) : List String :=
  m.map Prod.fst

/-- No key occurs twice; every map built from the empty one by
`insertOv` satisfies this. -/
def nodupKeys {α : Type} : AListMap α → Bool
  | [] => true
  | (k, _) :: t => !containsKey k t && nodupKeys t

/-- `Object.assign target source`: every entry of `source`, in order,
overwrites into `target`. -/
def objAssign {α : Type} (target : AListMap α) (source : List (String × α)) : AListMap α :=
  source.foldl (fun m p => insertOv p.1 p.2 m) target

/-- Last binding of key `k` in a batch, i.e. the value that survives
when the whole batch is overwritten into any map. -/
def assocLast {α : Type} (k : String) : List (String × α) → Option α
  | [] => none
  | (k', v) :: t =>
    match assocLast k t with
    | some w => some w
    | none => if k' = k then some v else none

theorem lookupA_insertOv {α : Type} (k2 k : String) (v : α) (m : AListMap α) :
    lookupA k2 (insertOv k v m) = if k2 = k then some v else lookupA k2 m := by
  induction m with
  | nil =>
    by_cases h : k2 = k
    · subst h; simp [insertOv, lookupA]
    · simp [insertOv, lookupA, h, Ne.symm h]
  | cons p t ih =>
    obtain ⟨k', v'⟩ := p
    by_cases hk : k' = k
    · subst hk
      by_cases h2 : k2 = k'
      · subst h2; simp [insertOv, lookupA]
      · simp [insertOv, lookupA, h2, Ne.symm h2]
    · by_cases h2 : k' = k2
      · subst h2
        simp [insertOv, lookupA, hk, Ne.symm hk]
      · simp [insertOv, lookupA, hk, h2, ih]

theorem containsKey_insertOv {α : Type} (k2 k : String) (v : α) (m : AListMap α) :
    containsKey k2 (insertOv k v m) = ((k2 = k : Bool) || containsKey k2 m) := by
  simp only [containsKey, lookupA_insertOv]
  by_cases h : k2 = k <;> simp [h]

theorem insertOv_of_not_contains {α : Type} (k : String) (v : α) (m : AListMap α)
    (h : containsKey k m = false) : insertOv k v m = m ++ [(k, v)] := by
  induction m with
  | nil => rfl
  | cons p t ih =>
    obtain ⟨k', v'⟩ := p
    have hk : ¬ k' = k := by
      intro hh; subst hh; simp [containsKey, lookupA] at h
    have ht : containsKey k t = false := by
      simpa [containsKey, lookupA, hk] using h
    simp [insertOv, hk, ih ht]

theorem keysList_insertOv {α : Type} (k : String) (v : α) (m : AListMap α) :
    keysList (insertOv k v m) =
      if containsKey k m then keysList m else keysList m ++ [k] := by
  induction m with
  | nil => simp [insertOv, keysList, containsKey, lookupA]
  | cons p t ih =>
    obtain ⟨k', v'⟩ := p
    by_cases hk : k' = k
    · subst hk
      simp [insertOv, keysList, containsKey, lookupA]
    · have hcc : containsKey k ((k', v') :: t) = containsKey k t := by
        simp [containsKey, lookupA, hk]
      rw [hcc]
      simp only [insertOv, if_neg hk, keysList, List.map_cons]
      rw [show (List.map Prod.fst (insertOv k v t) = keysList (insertOv k v t)) from rfl, ih]
      by_cases hc : containsKey k t <;> simp [hc, keysList]

theorem lookupA_append {α : Type} (k : String) (m1 m2 : AListMap α) :
    lookupA k (m1 ++ m2) =
      match lookupA k m1 with
      | some v => some v
      | none => lookupA k m2 := by
  induction m1 with
  | nil => simp [lookupA]
  | cons p t ih =>
    obtain ⟨k', v'⟩ := p
    by_cases h : k' = k
    · simp [lookupA, h]
    · simp [lookupA, h, ih]

theorem lookupA_objAssign {α : Type} (k : String) (m : AListMap α)
    (b : List (String × α)) :
    lookupA k (objAssign m b) =
      match assocLast k b with
      | some v => some v
      | none => lookupA k m := by
  induction b generalizing m with
  | nil => simp [objAssign, assocLast]
  | cons p t ih =>
    obtain ⟨k', v'⟩ := p
    have hstep : objAssign m ((k', v') :: t) = objAssign (insertOv k' v' m) t := rfl
    rw [hstep, ih]
    simp only [assocLast]
    cases hca : assocLast k t with
    | some w => simp
    | none =>
      simp only [lookupA_insertOv]
      by_cases h : k = k'
      · subst h; simp
      · simp [h, Ne.symm h]

theorem assocLast_isSome {α : Type} (k : String) (b : List (String × α)) :
    (assocLast k b).isSome = (lookupA k b).isSome := by
  induction b with
  | nil => rfl
  | cons p t ih =>
    obtain ⟨k', v'⟩ := p
    simp only [assocLast, lookupA]
    cases hca : assocLast k t with
    | some w =>
      have : (lookupA k t).isSome = true := by rw [← ih, hca]; rfl
      by_cases h : k' = k <;> simp [h, this]
    | none =>
      have : (lookupA k t).isSome = false := by rw [← ih, hca]; rfl
      by_cases h : k' = k <;> simp [h, this]

theorem assocLast_eq_lookupA_of_nodup {α : Type} (k : String) (b : AListMap α)
    (h : nodupKeys b = true) : assocLast k b = lookupA k b := by
  induction b with
  | nil => rfl
  | cons p t ih =>
    obtain ⟨k', v'⟩ := p
    simp only [nodupKeys, Bool.and_eq_true, Bool.not_eq_true'] at h
    obtain ⟨hnc, hnd⟩ := h
    simp only [assocLast, lookupA, ih hnd]
    by_cases hk : k' = k
    · subst hk
      have : lookupA k' t = none := by
        have := hnc
        simp only [containsKey] at this
        cases hlk : lookupA k' t with
        | none => rfl
        | some w => rw [hlk] at this; simp at this
      simp [this]
    · simp [hk]
      cases hlk : lookupA k t <;> simp

theorem containsKey_objAssign_mono {α : Type} (k : String) (m : AListMap α)
    (b : List (String × α)) (h : containsKey k m = true) :
    containsKey k (objAssign m b) = true := by
  simp only [containsKey, lookupA_objAssign]
  cases hca : assocLast k b with
  | some w => rfl
  | none => simpa [containsKey] using h

theorem mem_containsKey {α : Type} (k : String) (v : α) (m : AListMap α)
    (h : (k, v) ∈ m) : containsKey k m = true := by
  induction m with
  | nil => cases h
  | cons p t ih =>
    obtain ⟨k', v'⟩ := p
    rcases List.mem_cons.mp h with h1 | h2
    · cases h1
      simp [containsKey, lookupA]
    · by_cases hk : k' = k
      · simp [containsKey, lookupA, hk]
      · simpa [containsKey, lookupA, hk] using ih h2

theorem mem_assocLast_isSome {α : Type} (k : String) (v : α) (b : List (String × α))
    (h : (k, v) ∈ b) : (assocLast k b).isSome = true := by
  rw [assocLast_isSome]
  exact mem_containsKey k v b h

theorem keysList_objAssign_of_contains {α : Type} (m : AListMap α)
    (b : List (String × α)) (h : ∀ p ∈ b, containsKey p.1 m = true) :
    keysList (objAssign m b) = keysList m := by
  induction b generalizing m with
  | nil => rfl
  | cons p t ih =>
    obtain ⟨k, v⟩ := p
    have hstep : objAssign m ((k, v) :: t) = objAssign (insertOv k v m) t := rfl
    rw [hstep]
    have hk : containsKey k m = true := h (k, v) (List.mem_cons_self _ _)
    have hkeys : keysList (insertOv k v m) = keysList m := by
      rw [keysList_insertOv, if_pos hk]
    rw [ih (insertOv k v m) ?_, hkeys]
    intro q hq
    rw [containsKey_insertOv]
    by_cases hh : q.1 = k
    · simp [hh]
    · simp [hh, h q (List.mem_cons_of_mem _ hq)]

theorem containsKey_mem_objAssign {α : Type} (k : String) (v : α) (m : AListMap α)
    (b : List (String × α)) (h : (k, v) ∈ b) :
    containsKey k (objAssign m b) = true := by
  simp only [containsKey, lookupA_objAssign]
  have := mem_assocLast_isSome k v b h
  cases hca : assocLast k b with
  | some w => rfl
  | none => rw [hca] at this; simp at this

theorem nodupKeys_insertOv {α : Type} (k : String) (v : α) (m : AListMap α)
    (h : nodupKeys m = true) : nodupKeys (insertOv k v m) = true := by
  induction m with
  | nil => simp [insertOv, nodupKeys, containsKey, lookupA]
  | cons p t ih =>
    obtain ⟨k', v'⟩ := p
    simp only [nodupKeys, Bool.and_eq_true, Bool.not_eq_true'] at h
    obtain ⟨hnc, hnd⟩ := h
    by_cases hk : k' = k
    · subst hk
      simp [insertOv, nodupKeys, hnc, hnd]
    · simp only [insertOv, if_neg hk, nodupKeys, Bool.and_eq_true, Bool.not_eq_true']
      refine ⟨?_, ih hnd⟩
      rw [containsKey_insertOv]
      simp [hk, hnc]

theorem nodupKeys_objAssign {α : Type} (m : AListMap α) (b : List (String × α))
    (h : nodupKeys m = true) : nodupKeys (objAssign m b) = true := by
  induction b generalizing m with
  | nil => exact h
  | cons p t ih =>
    obtain ⟨k, v⟩ := p
    exact ih (insertOv k v m) (nodupKeys_insertOv k v m h)

theorem objAssign_fresh_append {α : Type} (m : AListMap α) (b : List (String × α))
    (hnd : nodupKeys b = true) (hfresh : ∀ p ∈ b, containsKey p.1 m = false) :
    objAssign m b = m ++ b := by
  induction b generalizing m with
  | nil => simp [objAssign]
  | cons p t ih =>
    obtain ⟨k, v⟩ := p
    simp only [nodupKeys, Bool.and_eq_true, Bool.not_eq_true'] at hnd
    obtain ⟨hnc, hndt⟩ := hnd
    have hstep : objAssign m ((k, v) :: t) = objAssign (insertOv k v m) t := rfl
    rw [hstep, insertOv_of_not_contains k v m (hfresh (k, v) (List.mem_cons_self _ _))]
    rw [ih (m ++ [(k, v)]) hndt ?_]
    · simp
    · intro q hq
      have hqm : containsKey q.1 m = false := hfresh q (List.mem_cons_of_mem _ hq)
      have hqk : ¬ q.1 = k := by
        intro hh
        obtain ⟨q1, q2⟩ := q
        simp only at hh
        subst hh
        rw [mem_containsKey q1 q2 t hq] at hnc
        cases hnc
      rw [containsKey]
      rw [lookupA_append]
      simp only [containsKey] at hqm
      cases hlk : lookupA q.1 m with
      | some w => rw [hlk] at hqm; simp at hqm
      | none => simp [lookupA, hlk, Ne.symm hqk]

theorem objAssign_nil_of_nodup {α : Type} (b : AListMap α)
    (h : nodupKeys b = true) : objAssign [] b = b := by
  have := objAssign_fresh_append ([] : AListMap α) b h
    (fun p _ => by simp [containsKey, lookupA])
  simpa using this

/-! ## Data model (`src/types.ts`)

The interceptor stores whatever runtime value the response carried, so
the record fields are embedded as `JValue`s; `none` encodes the `null`
that `|| null` produces.  On the payloads the backend actually sends,
`createTime` is a number (detail/stream) or a string (list) exactly as
`types.ts` declares. -/

/-- `MessageTimestamp`: `{ createTime, role }`, keyed by message id. -/
structure MessageTimestamp where
  createTime : JValue
  role : Option JValue

/-- `ConversationTimestamp`: `{ createTime, updateTime, title }`, keyed
by conversation id. -/
structure ConversationTimestamp where
  createTime : JValue
  updateTime : Option JValue
  title : Option JValue

/-- A message on the page-scoped `postMessage` channel: the two batch
broadcast shapes, the drain request, and anything else. -/
inductive ChannelMsg where
  | timestamps : AListMap MessageTimestamp → ChannelMsg
  | conversations : AListMap ConversationTimestamp → ChannelMsg
  | drainRequest : ChannelMsg
  | other : ChannelMsg

/-- The pieces of a `Response` the wrapper inspects.  `jsonBody` is the
result of `response.clone().json()`: `none` when the body is not valid
JSON (the promise rejects).  `hasBody` is `response.body` being
non-null, `sseContentType` whether the content-type header includes
`text/event-stream`. -/
structure Response where
  jsonBody : Option JValue
  hasBody : Bool
  sseContentType : Bool

/-- What the patched `window.fetch` hands back to its caller: the very
response object the original fetch produced, or a fresh `Response`
wrapping the tapped stream. -/
inductive WrapReturn where
  | original : Response → WrapReturn
  | tapped : Response → WrapReturn

/-- The interceptor's two module-level buffers. -/
structure InterState where
  tsBuf : AListMap MessageTimestamp
  convBuf : AListMap ConversationTimestamp

/-- The presenter's two record maps plus the two visibility settings
that gate its render signals. -/
structure PresState where
  tsMap : AListMap MessageTimestamp
  convMap : AListMap ConversationTimestamp
  showMessages : Bool
  showSidebar : Bool

/-- Render signals the presenter sends its rendering collaborator. -/
inductive RenderSignal where
  | messages : RenderSignal
  | sidebar : RenderSignal

/-! ## URL classification (interceptor lines 34-65)

The three regular expressions are simple enough to embed directly over
character lists: `RegExp.test` is an existential over match positions. -/

/-- `p` holds at some position of the list (`RegExp.test` semantics for
an unanchored pattern whose match begins where `p` holds). -/
def anyPos (p : List Char → Bool) : List Char → Bool
  | [] => p []
  | c :: rest => p (c :: rest) || anyPos p rest

/-- `String.prototype.includes pat`. -/
def occursIn (pat : List Char) (l : List Char) : Bool :=
  anyPos (fun s => pat.isPrefixOf s) l

/-- Character class `[0-9a-f-]`. -/
def isHexHyphen (c : Char) : Bool :=
  ('0' ≤ c && c ≤ '9') || ('a' ≤ c && c ≤ 'f') || c = '-'

def detailPat : List Char := "/backend-api/conversation/".data
def limitPat : List Char := "/backend-api/conversation/limit".data
def convsPat : List Char := "/backend-api/conversations".data
def streamPat : List Char := "/backend-api/f/conversation".data

/-- One match position of `\/backend-api\/conversation\/[0-9a-f-]{20,}`:
the literal prefix followed by at least 20 class characters. -/
def detailAt (l : List Char) : Bool :=
  detailPat.isPrefixOf l &&
    decide (20 ≤ ((l.drop detailPat.length).takeWhile isHexHyphen).length)

/-- One match position of `\/backend-api\/conversations(\?|$)`. -/
def listAt (l : List Char) : Bool :=
  convsPat.isPrefixOf l &&
    (match l.drop convsPat.length with
     | [] => true
     | c :: _ => c = '?')

/-- The conversation-detail branch condition (lines 34-38): the detail
regex matches and neither the limit nor the list substring occurs. -/
def detailCond (l : List Char) : Bool :=
  anyPos detailAt l && !occursIn limitPat l && !occursIn convsPat l

/-- The conversations-list branch condition (line 49). -/
def listCond (l : List Char) : Bool :=
  anyPos listAt l

/-- The URL part of the live-stream branch condition (line 62):
`\/backend-api\/f\/conversation$`. -/
def streamUrlCond (l : List Char) : Bool :=
  streamPat.isSuffixOf l

/-! ## Extraction (interceptor lines 89-149, 219-256) -/

/-- Loop body of `extractMessageTimestamps` for one `[_nodeId, node]`
entry of `Object.entries(data.mapping)`: `node.message` (which throws on
a null node), the `!msg?.id || msg.create_time == null` skip, and the
record written into the local `timestamps` object. -/
def detailEntry (node : JValue) : Except Unit (Option (String × MessageTimestamp)) :=
  match jsMember node "message" with
  | .error e => .error e
  | .ok msg =>
    if !jsTruthyOpt (jsChain msg "id") || jsLooseNull (jsChain msg "create_time") then
      .ok none
    else
      .ok (some (jsPropKey ((jsChain msg "id").getD .null),
        { createTime := (jsChain msg "create_time").getD .null,
          role := jsOrNull (jsChain (jsChain msg "author") "role") }))

/-- Loop body of `extractConversationTimestamps` for one item of
`data.items`: `!item.id || !item.create_time` skips (with `item.id`
throwing on a null item), `update_time`/`title` default to null when
falsy. -/
def listItemEntry (item : JValue) : Except Unit (Option (String × ConversationTimestamp)) :=
  match jsMember item "id" with
  | .error e => .error e
  | .ok idv =>
    if !jsTruthyOpt idv then .ok none
    else if !jsTruthyOpt (jsChain (some item) "create_time") then .ok none
    else
      .ok (some (jsPropKey (idv.getD .null),
        { createTime := (jsChain (some item) "create_time").getD .null,
          updateTime := jsOrNull (jsChain (some item) "update_time"),
          title := jsOrNull (jsChain (some item) "title") }))

/-- The shared shape of both extraction loops: per element, run the
entry function; a thrown exception aborts the whole extraction (the
caller's `catch` turns it into zero records), a skip contributes
nothing, and a produced entry is written into the local record object
(overwrite by key) with `count++`. -/
def extractLoop {α β : Type} (f : α → Except Unit (Option (String × β))) :
    List α → AListMap β → Nat → Except Unit (AListMap β × Nat)
  | [], acc, cnt => .ok (acc, cnt)
  | a :: rest, acc, cnt =>
    match f a with
    | .error e => .error e
    | .ok none => extractLoop f rest acc cnt
    | .ok (some (k, v)) => extractLoop f rest (insertOv k v acc) (cnt + 1)

/-- `extractMessageTimestamps` (lines 89-114), up to the point where the
local `timestamps` record and `count` are known; the buffer merge and
broadcast that happen when `count > 0` live in the fetch wrapper model
below. -/
def extractMessageTimestamps (data : JValue) : Except Unit (AListMap MessageTimestamp × Nat) :=
  match jsChain (some data) "mapping" with
  | none => .ok ([], 0)
  | some m => if jsTruthy m then extractLoop (fun p => detailEntry p.2) (jsEntries m) [] 0
              else .ok ([], 0)

/-- `extractConversationTimestamps` (lines 125-149):
`!data?.items || !Array.isArray(data.items)` returns zero records. -/
def extractConversationTimestamps (data : JValue) :
    Except Unit (AListMap ConversationTimestamp × Nat) :=
  match jsChain (some data) "items" with
  | some (.arr xs) => extractLoop listItemEntry xs [] 0
  | _ => .ok ([], 0)

/-- The message record check shared by both arms of
`extractStreamTimestamp`: `msg.id && msg.create_time != null` (the
callers guarantee `msg` is truthy, so plain access cannot throw). -/
def streamMsgEntry (msg : JValue) : Option (String × MessageTimestamp) :=
  if !jsTruthyOpt (jsChain (some msg) "id") then none
  else if jsLooseNull (jsChain (some msg) "create_time") then none
  else some (jsPropKey ((jsChain (some msg) "id").getD .null),
    { createTime := (jsChain (some msg) "create_time").getD .null,
      role := jsOrNull (jsChain (jsChain (some msg) "author") "role") })

/-- `extractStreamTimestamp` (lines 219-246): the `input_message`
envelope and the delta envelope `data.v.message`, written into one local
`timestamps` record in that order. -/
def extractStreamTimestamp (data : JValue) : AListMap MessageTimestamp :=
  let l0 : AListMap MessageTimestamp := []
  let l1 :=
    if jsStrictEqStr (jsChain (some data) "type") "input_message" &&
        jsTruthyOpt (jsChain (some data) "input_message") then
      match streamMsgEntry ((jsChain (some data) "input_message").getD .null) with
      | some (k, v) => insertOv k v l0
      | none => l0
    else l0
  if jsTruthyOpt (jsChain (jsChain (some data) "v") "message") then
    match streamMsgEntry ((jsChain (jsChain (some data) "v") "message").getD .null) with
    | some (k, v) => insertOv k v l1
    | none => l1
  else l1

/-! ## The patched `window.fetch` (interceptor lines 16-74) -/

/-- The conversation-detail branch (lines 34-46): on a matching URL,
parse the cloned body and run `extractMessageTimestamps`; any exception
is swallowed.  A non-zero count merges the batch into `timestampBuffer`
and broadcasts it. -/
def detailBranch (url : List Char) (resp : Response) (st : InterState) :
    InterState × List ChannelMsg :=
  if detailCond url then
    match resp.jsonBody with
    | none => (st, [])
    | some j =>
      match extractMessageTimestamps j with
      | .error _ => (st, [])
      | .ok (ts, cnt) =>
        if cnt = 0 then (st, [])
        else ({ st with tsBuf := objAssign st.tsBuf ts }, [ChannelMsg.timestamps ts])
  else (st, [])

/-- The conversations-list branch (lines 49-57). -/
def listBranch (url : List Char) (resp : Response) (st : InterState) :
    InterState × List ChannelMsg :=
  if listCond url then
    match resp.jsonBody with
    | none => (st, [])
    | some j =>
      match extractConversationTimestamps j with
      | .error _ => (st, [])
      | .ok (cs, cnt) =>
        if cnt = 0 then (st, [])
        else ({ st with convBuf := objAssign st.convBuf cs }, [ChannelMsg.conversations cs])
  else (st, [])

/-- One run of the wrapper body after `await originalFetch` (lines
34-73): the detail branch, then the list branch, then the live-stream
branch which decides whether the caller gets the original response or a
fresh one wrapping the tapped stream.  Returns the new buffer state, the
broadcasts posted (in order), and the returned response. -/
def handleFetch (url : List Char) (resp : Response) (st : InterState) :
    InterState × List ChannelMsg × WrapReturn :=
  ((listBranch url resp (detailBranch url resp st).1).1,
   (detailBranch url resp st).2 ++ (listBranch url resp (detailBranch url resp st).1).2,
   if streamUrlCond url && resp.hasBody && resp.sseContentType then
     WrapReturn.tapped resp
   else
     WrapReturn.original resp)

/-! ## Channel listeners (interceptor lines 260-276, content.ts lines 82-119) -/

/-- The interceptor's drain-request listener: same-origin messages of
type `TIMEGPT_DRAIN_REQUEST` re-broadcast each buffer if non-empty;
everything else is ignored.  The buffers themselves never change. -/
def interceptorOnMessage (origin pageOrigin : String) (msg : ChannelMsg)
    (st : InterState) : InterState × List ChannelMsg :=
  if origin = pageOrigin then
    match msg with
    | .drainRequest =>
      (st, (if st.tsBuf.isEmpty then [] else [ChannelMsg.timestamps st.tsBuf]) ++
           (if st.convBuf.isEmpty then [] else [ChannelMsg.conversations st.convBuf]))
    | _ => (st, [])
  else (st, [])

/-- The presenter's per-batch merge (content.ts lines 92-96 / 107-111):
`Map.set` every entry, counting ids not already present at the moment
they are set. -/
def mapSetBatch {α : Type} (m : AListMap α) (batch : List (String × α)) :
    AListMap α × Nat :=
  batch.foldl
    (fun acc p =>
      (insertOv p.1 p.2 acc.1, if containsKey p.1 acc.1 then acc.2 else acc.2 + 1))
    (m, 0)

/-- The presenter's message listener (content.ts lines 82-119):
same-origin batches are merged; a render pass is signalled when the
batch brought at least one new id and the category is visible. -/
def presenterOnMessage (origin pageOrigin : String) (msg : ChannelMsg)
    (ps : PresState) : PresState × List RenderSignal :=
  if origin = pageOrigin then
    match msg with
    | .timestamps batch =>
      let r := mapSetBatch ps.tsMap batch
      ({ ps with tsMap := r.1 },
       if 0 < r.2 && ps.showMessages then [RenderSignal.messages] else [])
    | .conversations batch =>
      let r := mapSetBatch ps.convMap batch
      ({ ps with convMap := r.1 },
       if 0 < r.2 && ps.showSidebar then [RenderSignal.sidebar] else [])
    | _ => (ps, [])
  else (ps, [])

/-! ## Whole-system operations

Each event the pipeline reacts to, as one state transition over both
contexts; used to state the key-preservation invariant. -/

/-- The events that touch the interceptor's buffers or the presenter's
record maps. -/
inductive SysOp where
  | fetchCall : List Char → Response → SysOp
  | streamEvent : Option JValue → SysOp
  | interMsg : String → String → ChannelMsg → SysOp
  | presMsg : String → String → ChannelMsg → SysOp

/-- Combined state of the two contexts. -/
structure SysState where
  inter : InterState
  pres : PresState

/-- `processSSEEvent`'s tail (lines 209-217) plus `extractStreamTimestamp`'s
merge (lines 246-255): `none` models a payload line whose `JSON.parse`
threw, or the absent/`[DONE]` payload, all of which are ignored. -/
def streamEventStep (payload : Option JValue) (st : InterState) :
    InterState × List ChannelMsg :=
  match payload with
  | none => (st, [])
  | some j =>
    if (extractStreamTimestamp j).isEmpty then (st, [])
    else ({ st with tsBuf := objAssign st.tsBuf (extractStreamTimestamp j) },
          [ChannelMsg.timestamps (extractStreamTimestamp j)])

/-- One system step. -/
def applySys (op : SysOp) (s : SysState) : SysState :=
  match op with
  | .fetchCall url resp => { s with inter := (handleFetch url resp s.inter).1 }
  | .streamEvent payload => { s with inter := (streamEventStep payload s.inter).1 }
  | .interMsg origin pageOrigin m =>
    { s with inter := (interceptorOnMessage origin pageOrigin m s.inter).1 }
  | .presMsg origin pageOrigin m =>
    { s with pres := (presenterOnMessage origin pageOrigin m s.pres).1 }

/-! ## The SSE stream tap (interceptor lines 152-195)

`tapSSEStream` reads the underlying body chunk by chunk.  Each `pull`
decodes the chunk with a stateful `TextDecoder` (abstracted as an
arbitrary decoder state machine, so the theorem holds regardless of how
the bytes decode), splits the accumulated text on blank lines, hands
every complete event to `processSSEEvent`, and enqueues the original
chunk bytes untouched.  On `done` the leftover buffer is processed. -/

/-- A chunk of the response body as delivered by `reader.read()`. -/
abbrev ByteChunk : Type := List Nat

/-- Tap state threaded through `pull` calls: the decoder's internal
state, the accumulated text `buffer`, the event strings handed to
`processSSEEvent` so far, and the chunks enqueued downstream so far. -/
structure TapState (σ : Type) where
  decSt : σ
  buffer : String
  processed : List String
  forwarded : List ByteChunk

/-- One `pull` with a fresh chunk (lines 158-177): decode and append,
split on `"\n\n"`, keep the trailing incomplete part (`parts.pop() || ""`),
process the complete parts, and enqueue the original bytes. -/
def tapPull {σ : Type} (decode : σ → ByteChunk → σ × String)
    (st : TapState σ) (chunk : ByteChunk) : TapState σ :=
  let d := decode st.decSt chunk
  let buf := st.buffer ++ d.2
  let parts := buf.splitOn "\n\n"
  { decSt := d.1,
    buffer := (parts.getLast?).getD "",
    processed := st.processed ++ parts.dropLast,
    forwarded := st.forwarded ++ [chunk] }

/-- The `done` arm (lines 160-165): a non-empty leftover buffer is
processed through `processSSEBuffer`; nothing more is enqueued. -/
def tapFinish {σ : Type} (st : TapState σ) : TapState σ :=
  if 0 < st.buffer.length then
    { st with processed := st.processed ++ st.buffer.splitOn "\n\n", buffer := "" }
  else st

/-- The whole tap run over a finite body: every chunk through `pull`,
then the `done` arm. -/
def tapRun {σ : Type} (decode : σ → ByteChunk → σ × String) (d0 : σ)
    (chunks : List ByteChunk) : TapState σ :=
  tapFinish (chunks.foldl (tapPull decode) ⟨d0, "", [], []⟩)

/-! ## Claim C2: the tap forwards the body byte-for-byte -/

theorem tapPull_foldl_forwarded {σ : Type} (decode : σ → ByteChunk → σ × String)
    (chunks : List ByteChunk) :
    ∀ st : TapState σ, (chunks.foldl (tapPull decode) st).forwarded =
      st.forwarded ++ chunks := by
  induction chunks with
  | nil => intro st; simp
  | cons c rest ih =>
    intro st
    rw [List.foldl_cons, ih]
    simp [tapPull]

theorem tapFinish_forwarded {σ : Type} (st : TapState σ) :
    (tapFinish st).forwarded = st.forwarded := by
  unfold tapFinish
  split <;> rfl

/-- C2: for every live-stream response passed through the tap, the
concatenation of all chunks the tap forwards to the host consumer
equals the original response body's byte sequence exactly — indeed the
forwarded chunk list is the original chunk list — for every decoder
behaviour, hence regardless of how many or which SSE events were
successfully parsed. -/
theorem c2_tap_preserves_body_bytes {σ : Type} (decode : σ → ByteChunk → σ × String)
    (d0 : σ) (chunks : List ByteChunk) :
    (tapRun decode d0 chunks).forwarded = chunks ∧
    (tapRun decode d0 chunks).forwarded.flatten = chunks.flatten := by
  have h : (tapRun decode d0 chunks).forwarded = chunks := by
    unfold tapRun
    rw [tapFinish_forwarded, tapPull_foldl_forwarded]
    simp
  exact ⟨h, by rw [h]⟩

/-! ## Claim C7: mutual exclusivity of the URL classifications -/

theorem anyPos_mono (p q : List Char → Bool) (hpq : ∀ s, p s = true → q s = true) :
    ∀ l, anyPos p l = true → anyPos q l = true := by
  intro l
  induction l with
  | nil => intro h; exact hpq [] h
  | cons c rest ih =>
    intro h
    rcases Bool.or_eq_true_iff.mp (by simpa [anyPos] using h) with h1 | h2
    · simp [anyPos, hpq _ h1]
    · simp [anyPos, ih h2]

theorem listCond_occursIn (l : List Char) (h : listCond l = true) :
    occursIn convsPat l = true := by
  refine anyPos_mono listAt (fun s => convsPat.isPrefixOf s) ?_ l h
  intro s hs
  exact (Bool.and_eq_true _ _ |>.mp (by simpa [listAt] using hs)).1

/-- The detail branch condition and the list branch condition can never
both hold: the list pattern forces the `/backend-api/conversations`
substring which the detail condition explicitly excludes. -/
theorem detailCond_listCond_incompatible (l : List Char) :
    (detailCond l && listCond l) = false := by
  cases hl : listCond l
  · simp
  · have hocc := listCond_occursIn l hl
    simp [detailCond, hocc]

/-- C7 counterexample: a URL satisfying both the conversation-detail
condition and the live-stream URL condition, so the three
classifications are not pairwise mutually exclusive as claimed. -/
theorem c7_counterexample_detail_and_stream :
    detailCond "/backend-api/conversation/aaaaaaaaaaaaaaaaaaaa/backend-api/f/conversation".data = true ∧
    streamUrlCond "/backend-api/conversation/aaaaaaaaaaaaaaaaaaaa/backend-api/f/conversation".data = true := by
  constructor <;> decide

/-- C7 (amended): for every URL string, the conversation-detail and
conversation-list conditions are mutually exclusive.  The live-stream
URL condition is not exclusive with the other two: it can hold together
with the detail condition (see the counterexample). -/
theorem c7_detail_list_mutually_exclusive :
    ∀ l : List Char, (detailCond l && listCond l) = false :=
  fun l => detailCond_listCond_incompatible l

/-! ## Claim C6: the presenter's per-batch merge is idempotent -/

theorem mapSetBatch_fold_fst {α : Type} (b : List (String × α)) :
    ∀ (m : AListMap α) (n : Nat),
      (b.foldl
        (fun acc p =>
          (insertOv p.1 p.2 acc.1, if containsKey p.1 acc.1 then acc.2 else acc.2 + 1))
        (m, n)).1 = objAssign m b := by
  induction b with
  | nil => intro m n; rfl
  | cons p t ih =>
    intro m n
    rw [List.foldl_cons]
    exact ih (insertOv p.1 p.2 m) _

theorem mapSetBatch_fst {α : Type} (m : AListMap α) (b : List (String × α)) :
    (mapSetBatch m b).1 = objAssign m b :=
  mapSetBatch_fold_fst b m 0

/-- C6: merging the same broadcast batch into the presenter's record
map twice yields exactly the same map — same keys in the same order and
the same value at every key — as merging it once. -/
theorem c6_presenter_merge_idempotent {α : Type} (m : AListMap α)
    (batch : List (String × α)) :
    keysList (mapSetBatch (mapSetBatch m batch).1 batch).1 =
      keysList (mapSetBatch m batch).1 ∧
    ∀ k, lookupA k (mapSetBatch (mapSetBatch m batch).1 batch).1 =
      lookupA k (mapSetBatch m batch).1 := by
  rw [mapSetBatch_fst, mapSetBatch_fst]
  constructor
  · refine keysList_objAssign_of_contains (objAssign m batch) batch ?_
    intro p hp
    exact containsKey_mem_objAssign p.1 p.2 m batch (by simpa using hp)
  · intro k
    cases hal : assocLast k batch with
    | some v => simp [lookupA_objAssign, hal]
    | none => simp [lookupA_objAssign, hal]

/-! ## Claim C9: foreign-origin messages are ignored by both receivers -/

/-- C9: a channel message whose origin differs from the page origin
leaves the interceptor's buffers and the presenter's record maps
unchanged, triggers no broadcast, and triggers no render signal. -/
theorem c9_foreign_origin_ignored (origin pageOrigin : String) (msg : ChannelMsg)
    (st : InterState) (ps : PresState) (h : ¬ origin = pageOrigin) :
    interceptorOnMessage origin pageOrigin msg st = (st, []) ∧
    presenterOnMessage origin pageOrigin msg ps = (ps, []) := by
  constructor
  · simp [interceptorOnMessage, h]
  · simp [presenterOnMessage, h]

/-- C9 witness: a concrete foreign-origin drain request is ignored by
both listeners. -/
theorem c9_foreign_origin_ignored_witness :
    interceptorOnMessage "https://evil.example" "https://chatgpt.com"
        ChannelMsg.drainRequest ⟨[], []⟩ = (⟨[], []⟩, []) ∧
    presenterOnMessage "https://evil.example" "https://chatgpt.com"
        ChannelMsg.drainRequest ⟨[], [], true, true⟩ = (⟨[], [], true, true⟩, []) :=
  c9_foreign_origin_ignored "https://evil.example" "https://chatgpt.com"
    ChannelMsg.drainRequest ⟨[], []⟩ ⟨[], [], true, true⟩ (by decide)

/-! ## Claim C1: extraction fails open on bad bodies -/

/-- A response body that is not valid JSON, or is valid JSON whose
top level lacks a `mapping` member. -/
def detailBodyBad (resp : Response) : Prop :=
  resp.jsonBody = none ∨
    ∃ j, resp.jsonBody = some j ∧ jsChain (some j) "mapping" = none

/-- A response body that is not valid JSON, or is valid JSON whose
top level lacks an `items` member. -/
def listBodyBad (resp : Response) : Prop :=
  resp.jsonBody = none ∨
    ∃ j, resp.jsonBody = some j ∧ jsChain (some j) "items" = none

/-- The message-timestamp records the detail extraction path yields for
a response (none when the body fails to parse or extraction throws). -/
def detailRecords (resp : Response) : AListMap MessageTimestamp :=
  match resp.jsonBody with
  | none => []
  | some j =>
    match extractMessageTimestamps j with
    | .ok (l, _) => l
    | .error _ => []

/-- The conversation-timestamp records the list extraction path yields
for a response. -/
def listRecords (resp : Response) : AListMap ConversationTimestamp :=
  match resp.jsonBody with
  | none => []
  | some j =>
    match extractConversationTimestamps j with
    | .ok (l, _) => l
    | .error _ => []

theorem extractMessageTimestamps_no_mapping (j : JValue)
    (h : jsChain (some j) "mapping" = none) :
    extractMessageTimestamps j = .ok ([], 0) := by
  simp [extractMessageTimestamps, h]

theorem extractConversationTimestamps_no_items (j : JValue)
    (h : jsChain (some j) "items" = none) :
    extractConversationTimestamps j = .ok ([], 0) := by
  unfold extractConversationTimestamps
  rw [h]

theorem detailBranch_bad (url : List Char) (resp : Response) (st : InterState)
    (h : detailBodyBad resp) : detailBranch url resp st = (st, []) := by
  unfold detailBranch
  rcases h with h | ⟨j, hj, hmap⟩
  · rw [h]; split <;> rfl
  · rw [hj]
    split
    · simp [extractMessageTimestamps_no_mapping j hmap]
    · rfl

theorem listBranch_bad (url : List Char) (resp : Response) (st : InterState)
    (h : listBodyBad resp) : listBranch url resp st = (st, []) := by
  unfold listBranch
  rcases h with h | ⟨j, hj, hmap⟩
  · rw [h]; split <;> rfl
  · rw [hj]
    split
    · simp [extractConversationTimestamps_no_items j hmap]
    · rfl

theorem detailBranch_not (url : List Char) (resp : Response) (st : InterState)
    (h : detailCond url = false) : detailBranch url resp st = (st, []) := by
  unfold detailBranch
  rw [h]
  simp

theorem listBranch_not (url : List Char) (resp : Response) (st : InterState)
    (h : listCond url = false) : listBranch url resp st = (st, []) := by
  unfold listBranch
  rw [h]
  simp

/-- C1: for an intercepted call classified as conversation-detail or
conversation-list (so in particular not the live-stream endpoint),
whose body is not valid JSON or lacks the expected top-level key,
extraction produces zero records, neither buffer changes, nothing is
broadcast, and the wrapper returns the original response object. -/
theorem c1_fail_open (url : List Char) (resp : Response) (st : InterState)
    (hstream : streamUrlCond url = false)
    (h : (detailCond url = true ∧ detailBodyBad resp) ∨
         (listCond url = true ∧ listBodyBad resp)) :
    handleFetch url resp st = (st, [], WrapReturn.original resp) ∧
    (detailCond url = true → detailRecords resp = []) ∧
    (listCond url = true → listRecords resp = []) := by
  have hret : (if streamUrlCond url && resp.hasBody && resp.sseContentType then
      WrapReturn.tapped resp else WrapReturn.original resp) = WrapReturn.original resp := by
    rw [hstream]; rfl
  rcases h with ⟨hd, hbad⟩ | ⟨hl, hbad⟩
  · have hlf : listCond url = false := by
      have := detailCond_listCond_incompatible url
      rw [hd] at this
      simpa using this
    have h1 := detailBranch_bad url resp st hbad
    have h2 := listBranch_not url resp st hlf
    refine ⟨?_, ?_, ?_⟩
    · simp [handleFetch, h1, h2, hstream]
    · intro _
      rcases hbad with hb | ⟨j, hj, hmap⟩
      · simp [detailRecords, hb]
      · simp [detailRecords, hj, extractMessageTimestamps_no_mapping j hmap]
    · intro hcontr
      rw [hcontr] at hlf
      cases hlf
  · have hdf : detailCond url = false := by
      have := detailCond_listCond_incompatible url
      rw [hl] at this
      simpa using this
    have h1 := detailBranch_not url resp st hdf
    have h2 := listBranch_bad url resp st hbad
    refine ⟨?_, ?_, ?_⟩
    · simp [handleFetch, h1, h2, hstream]
    · intro hcontr
      rw [hcontr] at hdf
      cases hdf
    · intro _
      rcases hbad with hb | ⟨j, hj, hmap⟩
      · simp [listRecords, hb]
      · simp [listRecords, hj, extractConversationTimestamps_no_items j hmap]

/-- C1 witness: a detail-classified URL with a JSON body lacking the
`mapping` key leaves everything untouched. -/
theorem c1_fail_open_witness :
    handleFetch "/backend-api/conversation/aaaaaaaaaaaaaaaaaaaa".data
        ⟨some (JValue.obj [("title", JValue.str "t")]), false, false⟩ ⟨[], []⟩ =
      (⟨[], []⟩, [],
       WrapReturn.original ⟨some (JValue.obj [("title", JValue.str "t")]), false, false⟩) ∧
    (detailCond "/backend-api/conversation/aaaaaaaaaaaaaaaaaaaa".data = true →
      detailRecords ⟨some (JValue.obj [("title", JValue.str "t")]), false, false⟩ = []) ∧
    (listCond "/backend-api/conversation/aaaaaaaaaaaaaaaaaaaa".data = true →
      listRecords ⟨some (JValue.obj [("title", JValue.str "t")]), false, false⟩ = []) :=
  c1_fail_open "/backend-api/conversation/aaaaaaaaaaaaaaaaaaaa".data
    ⟨some (JValue.obj [("title", JValue.str "t")]), false, false⟩ ⟨[], []⟩
    (by decide)
    (Or.inl ⟨by decide, Or.inr ⟨JValue.obj [("title", JValue.str "t")], rfl, rfl⟩⟩)

/-! ## Claim C5: drain replay reconstructs the full buffer -/

/-- Same-origin delivery of one broadcast message to the presenter. -/
def presDeliver (o : String) (ps : PresState) (mg : ChannelMsg) : PresState :=
  (presenterOnMessage o o mg ps).1

/-- The interceptor's buffers after merging a sequence of extracted
batches of each category, starting from the empty buffers of a fresh
page. -/
def interAfterBatches (batches : List (AListMap MessageTimestamp))
    (cbatches : List (AListMap ConversationTimestamp)) : InterState :=
  ⟨batches.foldl objAssign [], cbatches.foldl objAssign []⟩

/-- The presenter's state after merging the incremental broadcasts of
those batches, starting from empty record maps. -/
def presAfterIncr (o : String) (sm ss : Bool)
    (batches : List (AListMap MessageTimestamp))
    (cbatches : List (AListMap ConversationTimestamp)) : PresState :=
  (batches.map ChannelMsg.timestamps ++ cbatches.map ChannelMsg.conversations).foldl
    (presDeliver o) ⟨[], [], sm, ss⟩

/-- The presenter's state after those incremental broadcasts followed by
one drain response (the interceptor re-broadcasting its entire buffers,
each category only if non-empty). -/
def presAfterDrain (o : String) (sm ss : Bool)
    (batches : List (AListMap MessageTimestamp))
    (cbatches : List (AListMap ConversationTimestamp)) : PresState :=
  ((interceptorOnMessage o o ChannelMsg.drainRequest
      (interAfterBatches batches cbatches)).2).foldl
    (presDeliver o) (presAfterIncr o sm ss batches cbatches)

theorem presDeliver_ts (o : String) (ps : PresState) (b : AListMap MessageTimestamp) :
    presDeliver o ps (ChannelMsg.timestamps b) = { ps with tsMap := objAssign ps.tsMap b } := by
  simp [presDeliver, presenterOnMessage, mapSetBatch_fst]

theorem presDeliver_conv (o : String) (ps : PresState) (b : AListMap ConversationTimestamp) :
    presDeliver o ps (ChannelMsg.conversations b) = { ps with convMap := objAssign ps.convMap b } := by
  simp [presDeliver, presenterOnMessage, mapSetBatch_fst]

theorem foldl_presDeliver_ts (o : String) (bs : List (AListMap MessageTimestamp)) :
    ∀ ps : PresState, (bs.map ChannelMsg.timestamps).foldl (presDeliver o) ps =
      { ps with tsMap := bs.foldl objAssign ps.tsMap } := by
  induction bs with
  | nil => intro ps; rfl
  | cons b t ih =>
    intro ps
    rw [List.map_cons, List.foldl_cons, presDeliver_ts, ih]
    rfl

theorem foldl_presDeliver_conv (o : String) (bs : List (AListMap ConversationTimestamp)) :
    ∀ ps : PresState, (bs.map ChannelMsg.conversations).foldl (presDeliver o) ps =
      { ps with convMap := bs.foldl objAssign ps.convMap } := by
  induction bs with
  | nil => intro ps; rfl
  | cons b t ih =>
    intro ps
    rw [List.map_cons, List.foldl_cons, presDeliver_conv, ih]
    rfl

theorem nodupKeys_foldl_objAssign {α : Type} (bs : List (AListMap α)) :
    ∀ m : AListMap α, nodupKeys m = true → nodupKeys (bs.foldl objAssign m) = true := by
  induction bs with
  | nil => intro m h; exact h
  | cons b t ih =>
    intro m h
    exact ih (objAssign m b) (nodupKeys_objAssign m b h)

theorem objAssign_self_keys_lookups {α : Type} (T : AListMap α)
    (hT : nodupKeys T = true) :
    keysList (objAssign T T) = keysList T ∧
    ∀ k, lookupA k (objAssign T T) = lookupA k T := by
  constructor
  · refine keysList_objAssign_of_contains T T ?_
    intro p hp
    exact mem_containsKey p.1 p.2 T (by simpa using hp)
  · intro k
    rw [lookupA_objAssign, assocLast_eq_lookupA_of_nodup k T hT]
    cases lookupA k T <;> simp

/-- C5: after any number of incremental broadcasts followed by one
drain response, the presenter's record maps agree — same keys, same
values — with a direct replay of the interceptor's full buffers into
empty maps. -/
theorem c5_drain_replay (o : String) (sm ss : Bool)
    (batches : List (AListMap MessageTimestamp))
    (cbatches : List (AListMap ConversationTimestamp)) :
    (keysList (presAfterDrain o sm ss batches cbatches).tsMap =
       keysList (mapSetBatch ([] : AListMap MessageTimestamp)
         (interAfterBatches batches cbatches).tsBuf).1 ∧
     ∀ k, lookupA k (presAfterDrain o sm ss batches cbatches).tsMap =
       lookupA k (mapSetBatch ([] : AListMap MessageTimestamp)
         (interAfterBatches batches cbatches).tsBuf).1) ∧
    (keysList (presAfterDrain o sm ss batches cbatches).convMap =
       keysList (mapSetBatch ([] : AListMap ConversationTimestamp)
         (interAfterBatches batches cbatches).convBuf).1 ∧
     ∀ k, lookupA k (presAfterDrain o sm ss batches cbatches).convMap =
       lookupA k (mapSetBatch ([] : AListMap ConversationTimestamp)
         (interAfterBatches batches cbatches).convBuf).1) := by
  have hT : nodupKeys (batches.foldl objAssign ([] : AListMap MessageTimestamp)) = true :=
    nodupKeys_foldl_objAssign batches [] rfl
  have hC : nodupKeys (cbatches.foldl objAssign ([] : AListMap ConversationTimestamp)) = true :=
    nodupKeys_foldl_objAssign cbatches [] rfl
  have hincr : presAfterIncr o sm ss batches cbatches =
      ⟨batches.foldl objAssign [], cbatches.foldl objAssign [], sm, ss⟩ := by
    unfold presAfterIncr
    rw [List.foldl_append, foldl_presDeliver_ts, foldl_presDeliver_conv]
  have hmsgs : (interceptorOnMessage o o ChannelMsg.drainRequest
      (interAfterBatches batches cbatches)).2 =
      ((if (batches.foldl objAssign ([] : AListMap MessageTimestamp)).isEmpty then []
        else [batches.foldl objAssign []]).map ChannelMsg.timestamps) ++
      ((if (cbatches.foldl objAssign ([] : AListMap ConversationTimestamp)).isEmpty then []
        else [cbatches.foldl objAssign []]).map ChannelMsg.conversations) := by
    have ifMap : ∀ {γ δ : Type} (f : γ → δ) (e : Bool) (x : γ),
        (if e = true then ([] : List γ) else [x]).map f =
          (if e = true then ([] : List δ) else [f x]) := by
      intro γ δ f e x
      cases e <;> rfl
    unfold interceptorOnMessage interAfterBatches
    rw [if_pos rfl, ifMap, ifMap]
  have hfinal : presAfterDrain o sm ss batches cbatches =
      ⟨(if (batches.foldl objAssign ([] : AListMap MessageTimestamp)).isEmpty then []
          else [batches.foldl objAssign []]).foldl objAssign (batches.foldl objAssign []),
       (if (cbatches.foldl objAssign ([] : AListMap ConversationTimestamp)).isEmpty then []
          else [cbatches.foldl objAssign []]).foldl objAssign (cbatches.foldl objAssign []),
       sm, ss⟩ := by
    unfold presAfterDrain
    rw [hmsgs, hincr, List.foldl_append, foldl_presDeliver_ts, foldl_presDeliver_conv]
  have hreplayT : (mapSetBatch ([] : AListMap MessageTimestamp)
      (interAfterBatches batches cbatches).tsBuf).1 = batches.foldl objAssign [] := by
    rw [show (interAfterBatches batches cbatches).tsBuf = batches.foldl objAssign [] from rfl]
    rw [mapSetBatch_fst]
    exact objAssign_nil_of_nodup _ hT
  have hreplayC : (mapSetBatch ([] : AListMap ConversationTimestamp)
      (interAfterBatches batches cbatches).convBuf).1 = cbatches.foldl objAssign [] := by
    rw [show (interAfterBatches batches cbatches).convBuf = cbatches.foldl objAssign [] from rfl]
    rw [mapSetBatch_fst]
    exact objAssign_nil_of_nodup _ hC
  rw [hfinal, hreplayT, hreplayC]
  constructor
  · by_cases he : (batches.foldl objAssign ([] : AListMap MessageTimestamp)).isEmpty
    · simp only [he, if_pos]
      exact ⟨rfl, fun k => rfl⟩
    · simp only [he, if_neg, Bool.false_eq_true, not_false_eq_true, List.foldl_cons,
        List.foldl_nil]
      exact objAssign_self_keys_lookups _ hT
  · by_cases he : (cbatches.foldl objAssign ([] : AListMap ConversationTimestamp)).isEmpty
    · simp only [he, if_pos]
      exact ⟨rfl, fun k => rfl⟩
    · simp only [he, if_neg, Bool.false_eq_true, not_false_eq_true, List.foldl_cons,
        List.foldl_nil]
      exact objAssign_self_keys_lookups _ hC

/-! ## Claim C8: no operation ever removes a key -/

theorem detailBranch_tsBuf_mono (url : List Char) (resp : Response) (st : InterState)
    (k : String) (h : containsKey k st.tsBuf = true) :
    containsKey k (detailBranch url resp st).1.tsBuf = true := by
  unfold detailBranch
  split
  · split
    · exact h
    · split
      · exact h
      · split
        · exact h
        · exact containsKey_objAssign_mono k st.tsBuf _ h
  · exact h

theorem detailBranch_convBuf_eq (url : List Char) (resp : Response) (st : InterState) :
    (detailBranch url resp st).1.convBuf = st.convBuf := by
  unfold detailBranch
  split
  · split
    · rfl
    · split
      · rfl
      · split <;> rfl
  · rfl

theorem listBranch_convBuf_mono (url : List Char) (resp : Response) (st : InterState)
    (k : String) (h : containsKey k st.convBuf = true) :
    containsKey k (listBranch url resp st).1.convBuf = true := by
  unfold listBranch
  split
  · split
    · exact h
    · split
      · exact h
      · split
        · exact h
        · exact containsKey_objAssign_mono k st.convBuf _ h
  · exact h

theorem listBranch_tsBuf_eq (url : List Char) (resp : Response) (st : InterState) :
    (listBranch url resp st).1.tsBuf = st.tsBuf := by
  unfold listBranch
  split
  · split
    · rfl
    · split
      · rfl
      · split <;> rfl
  · rfl

theorem streamEventStep_tsBuf_mono (payload : Option JValue) (st : InterState)
    (k : String) (h : containsKey k st.tsBuf = true) :
    containsKey k (streamEventStep payload st).1.tsBuf = true := by
  unfold streamEventStep
  split
  · exact h
  · split
    · exact h
    · exact containsKey_objAssign_mono k st.tsBuf _ h

theorem streamEventStep_convBuf_eq (payload : Option JValue) (st : InterState) :
    (streamEventStep payload st).1.convBuf = st.convBuf := by
  unfold streamEventStep
  split
  · rfl
  · split <;> rfl

theorem interceptorOnMessage_state_eq (origin pageOrigin : String) (m : ChannelMsg)
    (st : InterState) : (interceptorOnMessage origin pageOrigin m st).1 = st := by
  unfold interceptorOnMessage
  split
  · split <;> rfl
  · rfl

theorem mapSetBatch_mono {α : Type} (k : String) (m : AListMap α)
    (b : List (String × α)) (h : containsKey k m = true) :
    containsKey k (mapSetBatch m b).1 = true := by
  rw [mapSetBatch_fst]
  exact containsKey_objAssign_mono k m b h

theorem presenterOnMessage_tsMap_mono (origin pageOrigin : String) (m : ChannelMsg)
    (ps : PresState) (k : String) (h : containsKey k ps.tsMap = true) :
    containsKey k (presenterOnMessage origin pageOrigin m ps).1.tsMap = true := by
  unfold presenterOnMessage
  split
  · split
    · exact mapSetBatch_mono k ps.tsMap _ h
    · exact h
    · exact h
  · exact h

theorem presenterOnMessage_convMap_mono (origin pageOrigin : String) (m : ChannelMsg)
    (ps : PresState) (k : String) (h : containsKey k ps.convMap = true) :
    containsKey k (presenterOnMessage origin pageOrigin m ps).1.convMap = true := by
  unfold presenterOnMessage
  split
  · split
    · exact h
    · exact mapSetBatch_mono k ps.convMap _ h
    · exact h
  · exact h

/-- C8: every operation of the pipeline — detail extraction merge, list
extraction merge, stream-event merge, broadcast-batch merge at the
presenter, and drain handling — preserves every key already present in
any of the interceptor's buffers or the presenter's record maps. -/
theorem c8_keys_never_removed (op : SysOp) (s : SysState) (k : String) :
    (containsKey k s.inter.tsBuf = true →
      containsKey k ((applySys op s).inter.tsBuf) = true) ∧
    (containsKey k s.inter.convBuf = true →
      containsKey k ((applySys op s).inter.convBuf) = true) ∧
    (containsKey k s.pres.tsMap = true →
      containsKey k ((applySys op s).pres.tsMap) = true) ∧
    (containsKey k s.pres.convMap = true →
      containsKey k ((applySys op s).pres.convMap) = true) := by
  cases op with
  | fetchCall url resp =>
    refine ⟨?_, ?_, fun h => h, fun h => h⟩
    · intro h
      show containsKey k (listBranch url resp (detailBranch url resp s.inter).1).1.tsBuf = true
      rw [listBranch_tsBuf_eq]
      exact detailBranch_tsBuf_mono url resp s.inter k h
    · intro h
      show containsKey k (listBranch url resp (detailBranch url resp s.inter).1).1.convBuf = true
      refine listBranch_convBuf_mono url resp _ k ?_
      rw [detailBranch_convBuf_eq]
      exact h
  | streamEvent payload =>
    refine ⟨?_, ?_, fun h => h, fun h => h⟩
    · intro h
      exact streamEventStep_tsBuf_mono payload s.inter k h
    · intro h
      show containsKey k (streamEventStep payload s.inter).1.convBuf = true
      rw [streamEventStep_convBuf_eq]
      exact h
  | interMsg origin pageOrigin m =>
    refine ⟨?_, ?_, fun h => h, fun h => h⟩
    · intro h
      show containsKey k (interceptorOnMessage origin pageOrigin m s.inter).1.tsBuf = true
      rw [interceptorOnMessage_state_eq]
      exact h
    · intro h
      show containsKey k (interceptorOnMessage origin pageOrigin m s.inter).1.convBuf = true
      rw [interceptorOnMessage_state_eq]
      exact h
  | presMsg origin pageOrigin m =>
    exact ⟨fun h => h, fun h => h,
      fun h => presenterOnMessage_tsMap_mono origin pageOrigin m s.pres k h,
      fun h => presenterOnMessage_convMap_mono origin pageOrigin m s.pres k h⟩

/-- C8 witness: a concrete key present before a concrete stream-event
merge is still present after it. -/
theorem c8_keys_never_removed_witness :
    containsKey "m1"
      ((applySys (SysOp.streamEvent none)
        ⟨⟨[("m1", ⟨JValue.num 1, none⟩)], []⟩, ⟨[], [], true, true⟩⟩).inter.tsBuf) = true :=
  (c8_keys_never_removed (SysOp.streamEvent none)
    ⟨⟨[("m1", ⟨JValue.num 1, none⟩)], []⟩, ⟨[], [], true, true⟩⟩ "m1").1 (by decide)

/-! ## Claim C10: filtering is by falsiness, not presence -/

/-- C10: extraction filters string fields by JavaScript falsiness
rather than presence: a list item whose `id` or `create_time` is the
empty string is skipped entirely, a detail-mapping message whose `id`
is the empty string is skipped, and an empty-string `title` or author
`role` is stored as null rather than as the empty string. -/
theorem c10_falsiness_filtering :
    (∀ fs : List (String × JValue), lookupField fs "id" = some (JValue.str "") →
      listItemEntry (JValue.obj fs) = .ok none) ∧
    (∀ (fs : List (String × JValue)) (s : String),
      lookupField fs "id" = some (JValue.str s) → s ≠ "" →
      lookupField fs "create_time" = some (JValue.str "") →
      listItemEntry (JValue.obj fs) = .ok none) ∧
    (∀ (fs ms : List (String × JValue)),
      lookupField fs "message" = some (JValue.obj ms) →
      lookupField ms "id" = some (JValue.str "") →
      detailEntry (JValue.obj fs) = .ok none) ∧
    (∀ (fs : List (String × JValue)) (s ct : String),
      lookupField fs "id" = some (JValue.str s) → s ≠ "" →
      lookupField fs "create_time" = some (JValue.str ct) → ct ≠ "" →
      lookupField fs "title" = some (JValue.str "") →
      ∃ v, listItemEntry (JValue.obj fs) = .ok (some (s, v)) ∧ v.title = none) ∧
    (∀ (fs ms afs : List (String × JValue)) (s : String) (n : Int),
      lookupField fs "message" = some (JValue.obj ms) →
      lookupField ms "id" = some (JValue.str s) → s ≠ "" →
      lookupField ms "create_time" = some (JValue.num n) →
      lookupField ms "author" = some (JValue.obj afs) →
      lookupField afs "role" = some (JValue.str "") →
      ∃ v, detailEntry (JValue.obj fs) = .ok (some (s, v)) ∧ v.role = none) := by
  refine ⟨?_, ?_, ?_, ?_, ?_⟩
  · intro fs hid
    simp [listItemEntry, jsMember, hid, jsTruthyOpt, jsTruthy]
  · intro fs s hid hs hct
    simp [listItemEntry, jsMember, jsChain, hid, hct, jsTruthyOpt, jsTruthy, hs]
  · intro fs ms hmsg hid
    simp [detailEntry, jsMember, jsChain, hmsg, hid, jsTruthyOpt, jsTruthy]
  · intro fs s ct hid hs hct hcts htitle
    refine ⟨⟨JValue.str ct,
      jsOrNull (jsChain (some (JValue.obj fs)) "update_time"), none⟩, ?_, rfl⟩
    simp [listItemEntry, jsMember, jsChain, hid, hct, htitle, jsTruthyOpt, jsTruthy,
      hs, hcts, jsPropKey, jsOrNull]
  · intro fs ms afs s n hmsg hid hs hct hauthor hrole
    refine ⟨⟨JValue.num n, none⟩, ?_, rfl⟩
    simp [detailEntry, jsMember, jsChain, hmsg, hid, hct, hauthor, hrole, jsTruthyOpt,
      jsTruthy, jsLooseNull, hs, jsPropKey, jsOrNull]

/-- C10 witness: concrete empty-string fields are filtered exactly as
the claim describes. -/
theorem c10_falsiness_filtering_witness :
    listItemEntry (JValue.obj [("id", JValue.str ""), ("create_time", JValue.str "x")]) =
      .ok none ∧
    listItemEntry (JValue.obj [("id", JValue.str "c"), ("create_time", JValue.str "")]) =
      .ok none ∧
    detailEntry (JValue.obj [("message", JValue.obj
      [("id", JValue.str ""), ("create_time", JValue.num 5)])]) = .ok none ∧
    (∃ v, listItemEntry (JValue.obj [("id", JValue.str "c"),
        ("create_time", JValue.str "x"), ("title", JValue.str "")]) =
      .ok (some ("c", v)) ∧ v.title = none) ∧
    (∃ v, detailEntry (JValue.obj [("message", JValue.obj [("id", JValue.str "m"),
        ("create_time", JValue.num 5),
        ("author", JValue.obj [("role", JValue.str "")])])]) =
      .ok (some ("m", v)) ∧ v.role = none) :=
  ⟨c10_falsiness_filtering.1 _ rfl,
   c10_falsiness_filtering.2.1 _ "c" rfl (by decide) rfl,
   c10_falsiness_filtering.2.2.1 _ _ rfl rfl,
   c10_falsiness_filtering.2.2.2.1 _ "c" "x" rfl (by decide) rfl (by decide) rfl,
   c10_falsiness_filtering.2.2.2.2 _ _ _ "m" 5 rfl rfl (by decide) rfl rfl rfl⟩

/-! ## Claims C3 and C4: extraction correctness on well-formed bodies -/

/-- The `message` record of a mapping node, as the response shape
describes it. -/
def msgOf (node : JValue) : Option JValue := jsChain (some node) "message"

/-- The message's `id` field. -/
def msgIdOf (node : JValue) : Option JValue := jsChain (msgOf node) "id"

/-- The message's `create_time` field. -/
def msgCtOf (node : JValue) : Option JValue := jsChain (msgOf node) "create_time"

/-- The message's author role (`none` when the author or role is
absent, i.e. the claim's "defaulting to null"). -/
def msgRoleOf (node : JValue) : Option JValue :=
  jsChain (jsChain (msgOf node) "author") "role"

/-- The claim's counting predicate: the node's message has both a
non-null `id` and a non-null `create_time`. -/
def claimQualifies (node : JValue) : Bool :=
  !jsLooseNull (msgIdOf node) && !jsLooseNull (msgCtOf node)

/-- The key under which a qualifying node's entry is stored: the
message id string. -/
def idStrOf (node : JValue) : String :=
  match msgIdOf node with
  | some (.str s) => s
  | _ => ""

/-- No string occurs in the list. -/
def strFresh (x : String) : List String → Bool
  | [] => true
  | y :: t => if y = x then false else strFresh x t

/-- The strings are pairwise distinct. -/
def strNodup : List String → Bool
  | [] => true
  | x :: t => strFresh x t && strNodup t

theorem strFresh_ne (x : String) (l : List String) (h : strFresh x l = true)
    (y : String) (hy : y ∈ l) : ¬ y = x := by
  induction l with
  | nil => cases hy
  | cons z t ih =>
    simp only [strFresh] at h
    rcases List.mem_cons.mp hy with h1 | h2
    · subst h1
      intro hc
      rw [if_pos hc] at h
      cases h
    · refine ih ?_ h2
      by_cases hz : z = x
      · rw [if_pos hz] at h; cases h
      · rwa [if_neg hz] at h

/-- A well-formed message record: `id` absent or a non-empty string,
`create_time` absent, null, or a number, `author` absent, null, or an
object whose `role` is absent or a non-empty string. -/
def wfMsgFields (ms : List (String × JValue)) : Bool :=
  (match lookupField ms "id" with
   | none => true
   | some (.str s) => s ≠ ""
   | some _ => false) &&
  (match lookupField ms "create_time" with
   | none => true
   | some .null => true
   | some (.num _) => true
   | some _ => false) &&
  (match lookupField ms "author" with
   | none => true
   | some .null => true
   | some (.obj afs) =>
     (match lookupField afs "role" with
      | none => true
      | some (.str r) => r ≠ ""
      | some _ => false)
   | some _ => false)

/-- A well-formed mapping node: an object whose `message` is absent,
null, or a well-formed message record. -/
def wfNode (node : JValue) : Bool :=
  match node with
  | .obj fs =>
    (match lookupField fs "message" with
     | none => true
     | some .null => true
     | some (.obj ms) => wfMsgFields ms
     | some _ => false)
  | _ => false

/-- The ids of the qualifying nodes, in mapping order. -/
def qualIdList (nodes : List (String × JValue)) : List String :=
  nodes.filterMap (fun p => if claimQualifies p.2 then some (idStrOf p.2) else none)

/-- The nodes of a detail response's `mapping` object. -/
def detailNodes (data : JValue) : List (String × JValue) :=
  match jsChain (some data) "mapping" with
  | some (.obj nodes) => nodes
  | _ => []

/-- A well-formed conversation-detail response body: its `mapping`
member is an object of well-formed nodes whose qualifying message ids
are pairwise distinct (message ids are unique in the application). -/
def WFDetail (data : JValue) : Bool :=
  match jsChain (some data) "mapping" with
  | some (.obj nodes) =>
    nodes.all (fun p => wfNode p.2) && strNodup (qualIdList nodes)
  | _ => false

/-- The entry the extraction loop produces for one node, stated
intrinsically. -/
def detailGoodEntry (node : JValue) : Option (String × MessageTimestamp) :=
  if claimQualifies node then
    some (idStrOf node,
      { createTime := (msgCtOf node).getD .null, role := jsOrNull (msgRoleOf node) })
  else none

theorem detailEntry_of_wf (node : JValue) (h : wfNode node = true) :
    detailEntry node = .ok (detailGoodEntry node) := by
  cases node with
  | obj fs =>
    simp only [wfNode] at h
    cases hm : lookupField fs "message" with
    | none =>
      simp [detailEntry, jsMember, hm, jsChain, jsTruthyOpt, detailGoodEntry,
        claimQualifies, msgIdOf, msgOf, msgCtOf, jsLooseNull]
    | some mv =>
      rw [hm] at h
      cases mv with
      | null =>
        simp [detailEntry, jsMember, hm, jsChain, jsTruthyOpt, detailGoodEntry,
          claimQualifies, msgIdOf, msgOf, msgCtOf, jsLooseNull]
      | obj ms =>
        simp only [wfMsgFields, Bool.and_eq_true] at h
        obtain ⟨⟨h1, h2⟩, h3⟩ := h
        cases hid : lookupField ms "id" with
        | none =>
          simp [detailEntry, jsMember, hm, jsChain, hid, jsTruthyOpt, detailGoodEntry,
            claimQualifies, msgIdOf, msgOf, msgCtOf, jsLooseNull]
        | some idv =>
          rw [hid] at h1
          cases idv with
          | str s =>
            have hs : ¬ s = "" := by simpa using h1
            cases hct : lookupField ms "create_time" with
            | none =>
              simp [detailEntry, jsMember, hm, jsChain, hid, hct, jsTruthyOpt, jsTruthy,
                detailGoodEntry, claimQualifies, msgIdOf, msgOf, msgCtOf, jsLooseNull, hs]
            | some ctv =>
              rw [hct] at h2
              cases ctv with
              | null =>
                simp [detailEntry, jsMember, hm, jsChain, hid, hct, jsTruthyOpt, jsTruthy,
                  detailGoodEntry, claimQualifies, msgIdOf, msgOf, msgCtOf, jsLooseNull, hs]
              | num n =>
                simp [detailEntry, jsMember, hm, jsChain, hid, hct, jsTruthyOpt, jsTruthy,
                  detailGoodEntry, claimQualifies, msgIdOf, msgOf, msgCtOf, msgRoleOf,
                  jsLooseNull, hs, jsPropKey, idStrOf]
              | bool b => cases h2
              | str s2 => cases h2
              | arr xs => cases h2
              | obj os => cases h2
          | null => cases h1
          | bool b => cases h1
          | num n => cases h1
          | arr xs => cases h1
          | obj os => cases h1
      | bool b => cases h
      | num n => cases h
      | str s => cases h
      | arr xs => cases h
  | null => cases h
  | bool b => cases h
  | num n => cases h
  | str s => cases h
  | arr xs => cases h

theorem jsOrNull_msgRoleOf_of_wf (node : JValue) (h : wfNode node = true) :
    jsOrNull (msgRoleOf node) = msgRoleOf node := by
  cases node with
  | obj fs =>
    simp only [wfNode] at h
    cases hm : lookupField fs "message" with
    | none => simp [msgRoleOf, msgOf, jsChain, hm, jsOrNull, jsTruthyOpt]
    | some mv =>
      rw [hm] at h
      cases mv with
      | null => simp [msgRoleOf, msgOf, jsChain, hm, jsOrNull, jsTruthyOpt]
      | obj ms =>
        simp only [wfMsgFields, Bool.and_eq_true] at h
        obtain ⟨⟨h1, h2⟩, h3⟩ := h
        cases hau : lookupField ms "author" with
        | none => simp [msgRoleOf, msgOf, jsChain, hm, hau, jsOrNull, jsTruthyOpt]
        | some av =>
          rw [hau] at h3
          cases av with
          | null => simp [msgRoleOf, msgOf, jsChain, hm, hau, jsOrNull, jsTruthyOpt]
          | obj afs =>
            have h4 : (match lookupField afs "role" with
                | none => true
                | some (.str r) => decide (r ≠ "")
                | some _ => false) = true := h3
            cases hr : lookupField afs "role" with
            | none => simp [msgRoleOf, msgOf, jsChain, hm, hau, hr, jsOrNull, jsTruthyOpt]
            | some rv =>
              rw [hr] at h4
              cases rv with
              | str r =>
                have hrr : ¬ r = "" := by simpa using h4
                simp [msgRoleOf, msgOf, jsChain, hm, hau, hr, jsOrNull, jsTruthyOpt,
                  jsTruthy, hrr]
              | null => cases h4
              | bool b => cases h4
              | num n => cases h4
              | arr xs => cases h4
              | obj os => cases h4
          | bool b => cases h3
          | num n => cases h3
          | str s => cases h3
          | arr xs => cases h3
      | bool b => cases h
      | num n => cases h
      | str s => cases h
      | arr xs => cases h
  | null => cases h
  | bool b => cases h
  | num n => cases h
  | str s => cases h
  | arr xs => cases h

theorem length_filterMap_eq_countP {α β : Type} (g : α → Option β) (l : List α) :
    (l.filterMap g).length = l.countP (fun a => (g a).isSome) := by
  induction l with
  | nil => rfl
  | cons a t ih =>
    cases hg : g a <;> simp [List.filterMap_cons, hg, List.countP_cons, ih]

theorem extractLoop_spec {α β : Type} (f : α → Except Unit (Option (String × β)))
    (g : α → Option (String × β)) (l : List α) :
    ∀ (acc : AListMap β) (cnt : Nat),
    (∀ a ∈ l, f a = .ok (g a)) →
    (∀ a ∈ l, ∀ k v, g a = some (k, v) → containsKey k acc = false) →
    strNodup ((l.filterMap g).map Prod.fst) = true →
    extractLoop f l acc cnt = .ok (acc ++ l.filterMap g, cnt + (l.filterMap g).length) := by
  induction l with
  | nil =>
    intro acc cnt _ _ _
    simp [extractLoop]
  | cons a t ih =>
    intro acc cnt hf hfresh hnd
    have hfa := hf a (List.mem_cons_self a t)
    cases hg : g a with
    | none =>
      simp only [extractLoop, hfa, hg]
      rw [List.filterMap_cons_none hg] at hnd ⊢
      exact ih acc cnt (fun b hb => hf b (List.mem_cons_of_mem a hb))
        (fun b hb => hfresh b (List.mem_cons_of_mem a hb)) hnd
    | some kv =>
      obtain ⟨k, v⟩ := kv
      simp only [extractLoop, hfa, hg]
      rw [List.filterMap_cons_some hg] at hnd ⊢
      simp only [List.map_cons] at hnd
      have hnd2 := (Bool.and_eq_true _ _).mp (by simpa [strNodup] using hnd)
      rw [insertOv_of_not_contains k v acc
        (hfresh a (List.mem_cons_self a t) k v hg)]
      have hfresh2 : ∀ b ∈ t, ∀ k2 v2, g b = some (k2, v2) →
          containsKey k2 (acc ++ [(k, v)]) = false := by
        intro b hb k2 v2 hgb
        have hk2 : ¬ k2 = k := by
          refine strFresh_ne k ((t.filterMap g).map Prod.fst) hnd2.1 k2 ?_
          exact List.mem_map.mpr ⟨(k2, v2), List.mem_filterMap.mpr ⟨b, hb, hgb⟩, rfl⟩
        have hacc := hfresh b (List.mem_cons_of_mem a hb) k2 v2 hgb
        simp only [containsKey] at hacc ⊢
        rw [lookupA_append]
        cases hlk : lookupA k2 acc with
        | some w => rw [hlk] at hacc; cases hacc
        | none => simp [lookupA, Ne.symm hk2]
      rw [ih (acc ++ [(k, v)]) (cnt + 1)
        (fun b hb => hf b (List.mem_cons_of_mem a hb)) hfresh2 hnd2.2]
      simp only [Except.ok.injEq, Prod.mk.injEq]
      constructor
      · simp [List.append_assoc]
      · simp [List.length_cons]
        omega

theorem lookupA_filterMap_of_mem {α β : Type} (g : α → Option (String × β)) (l : List α)
    (hnd : strNodup ((l.filterMap g).map Prod.fst) = true)
    (a : α) (ha : a ∈ l) (k : String) (v : β) (hg : g a = some (k, v)) :
    lookupA k (l.filterMap g) = some v := by
  induction l with
  | nil => cases ha
  | cons b t ih =>
    rcases List.mem_cons.mp ha with h1 | h2
    · subst h1
      rw [List.filterMap_cons_some hg]
      simp [lookupA]
    · cases hgb : g b with
      | none =>
        rw [List.filterMap_cons_none hgb] at hnd ⊢
        exact ih hnd h2
      | some kv2 =>
        obtain ⟨k2, v2⟩ := kv2
        rw [List.filterMap_cons_some hgb] at hnd ⊢
        simp only [List.map_cons] at hnd
        have hnd2 := (Bool.and_eq_true _ _).mp (by simpa [strNodup] using hnd)
        have hne : ¬ k = k2 := by
          refine strFresh_ne k2 ((t.filterMap g).map Prod.fst) hnd2.1 k ?_
          exact List.mem_map.mpr ⟨(k, v), List.mem_filterMap.mpr ⟨a, h2, hg⟩, rfl⟩
        rw [show lookupA k ((k2, v2) :: t.filterMap g) =
            if k2 = k then some v2 else lookupA k (t.filterMap g) from rfl]
        rw [if_neg (fun hh => hne hh.symm)]
        exact ih hnd2.2 h2

theorem isSome_detailGoodEntry (node : JValue) :
    (detailGoodEntry node).isSome = claimQualifies node := by
  by_cases hq : claimQualifies node <;> simp [detailGoodEntry, hq]

theorem map_fst_filterMap_detailGoodEntry (nodes : List (String × JValue)) :
    ((nodes.filterMap fun p => detailGoodEntry p.2).map Prod.fst) = qualIdList nodes := by
  induction nodes with
  | nil => rfl
  | cons p t ih =>
    by_cases hq : claimQualifies p.2
    · simp only [List.filterMap_cons, detailGoodEntry, hq, if_pos, qualIdList] at ih ⊢
      simp [ih, qualIdList]
    · simp only [List.filterMap_cons, detailGoodEntry, hq, if_neg, qualIdList] at ih ⊢
      simp [ih, qualIdList, hq]

theorem countP_ext {α : Type} (p q : α → Bool) (l : List α) (h : ∀ a, p a = q a) :
    l.countP p = l.countP q := by
  induction l with
  | nil => rfl
  | cons a t ih => simp [List.countP_cons, h a, ih]

/-- C3: on a well-formed conversation-detail body, extraction produces
exactly one `MessageTimestamp` per mapping node whose message has a
non-null id and non-null `create_time` (the loop counter agrees), and
the entry for each such node is keyed by the message id, carries the
message's `create_time`, and carries the author role, null when
absent. -/
theorem c3_detail_extraction (data : JValue) (h : WFDetail data = true) :
    ∃ entries cnt,
      extractMessageTimestamps data = .ok (entries, cnt) ∧
      cnt = (detailNodes data).countP (fun p => claimQualifies p.2) ∧
      entries.length = (detailNodes data).countP (fun p => claimQualifies p.2) ∧
      ∀ p ∈ detailNodes data, ∀ s ct, msgIdOf p.2 = some (JValue.str s) →
        msgCtOf p.2 = some ct → ¬ ct = JValue.null →
        lookupA s entries = some { createTime := ct, role := msgRoleOf p.2 } := by
  unfold WFDetail at h
  cases hmap : jsChain (some data) "mapping" with
  | none => rw [hmap] at h; cases h
  | some m =>
    rw [hmap] at h
    cases m with
    | obj nodes =>
      obtain ⟨hall, hnd⟩ := (Bool.and_eq_true _ _).mp h
      have hwf : ∀ p ∈ nodes, wfNode p.2 = true := fun p hp =>
        (List.all_eq_true.mp hall) p hp
      have hnodes : detailNodes data = nodes := by
        unfold detailNodes
        rw [hmap]
      have hext : extractMessageTimestamps data =
          extractLoop (fun p => detailEntry p.2) nodes [] 0 := by
        unfold extractMessageTimestamps
        rw [hmap]
        rfl
      have hnd' : strNodup (((nodes.filterMap fun p => detailGoodEntry p.2).map
          Prod.fst)) = true := by
        rw [map_fst_filterMap_detailGoodEntry]
        exact hnd
      have hloop := extractLoop_spec (fun p => detailEntry p.2)
        (fun p => detailGoodEntry p.2) nodes [] 0
        (fun p hp => detailEntry_of_wf p.2 (hwf p hp))
        (fun a _ k v _ => rfl)
        hnd'
      refine ⟨nodes.filterMap (fun p => detailGoodEntry p.2),
        0 + (nodes.filterMap (fun p => detailGoodEntry p.2)).length, ?_, ?_, ?_, ?_⟩
      · rw [hext, hloop]
        simp
      · rw [hnodes, Nat.zero_add, length_filterMap_eq_countP]
        exact countP_ext _ _ nodes (fun p => isSome_detailGoodEntry p.2)
      · rw [hnodes, length_filterMap_eq_countP]
        exact countP_ext _ _ nodes (fun p => isSome_detailGoodEntry p.2)
      · rw [hnodes]
        intro p hp s ct hid hct hctnull
        have hq : claimQualifies p.2 = true := by
          unfold claimQualifies
          rw [hid, hct]
          cases ct with
          | null => exact absurd rfl hctnull
          | bool b => simp [jsLooseNull]
          | num n => simp [jsLooseNull]
          | str s2 => simp [jsLooseNull]
          | arr xs => simp [jsLooseNull]
          | obj os => simp [jsLooseNull]
        have hgent : detailGoodEntry p.2 =
            some (s, { createTime := ct, role := msgRoleOf p.2 }) := by
          unfold detailGoodEntry
          rw [if_pos hq, show idStrOf p.2 = s from by simp [idStrOf, hid], hct,
            jsOrNull_msgRoleOf_of_wf p.2 (hwf p hp)]
          simp
        exact lookupA_filterMap_of_mem (fun p => detailGoodEntry p.2) nodes hnd'
          p hp s _ hgent
    | null => cases h
    | bool b => cases h
    | num n => cases h
    | str s => cases h
    | arr xs => cases h

/-- A concrete well-formed detail body (the spec's own example). -/
def sampleDetailBody : JValue :=
  .obj [("mapping", .obj [("n1", .obj [("message", .obj
    [("id", .str "m1"), ("create_time", .num 1700000000),
     ("author", .obj [("role", .str "user")])])])])]

/-- C3 witness: the theorem applied to the spec's example body. -/
theorem c3_detail_extraction_witness :
    ∃ entries cnt,
      extractMessageTimestamps sampleDetailBody = .ok (entries, cnt) ∧
      cnt = (detailNodes sampleDetailBody).countP (fun p => claimQualifies p.2) ∧
      entries.length = (detailNodes sampleDetailBody).countP (fun p => claimQualifies p.2) ∧
      ∀ p ∈ detailNodes sampleDetailBody, ∀ s ct, msgIdOf p.2 = some (JValue.str s) →
        msgCtOf p.2 = some ct → ¬ ct = JValue.null →
        lookupA s entries = some { createTime := ct, role := msgRoleOf p.2 } :=
  c3_detail_extraction sampleDetailBody (by decide)

/-! ## Claim C4 -/

/-- A list item's `id` field. -/
def itemIdOf (item : JValue) : Option JValue := jsChain (some item) "id"

/-- A list item's `create_time` field. -/
def itemCtOf (item : JValue) : Option JValue := jsChain (some item) "create_time"

/-- A list item's `update_time` field. -/
def itemUtOf (item : JValue) : Option JValue := jsChain (some item) "update_time"

/-- A list item's `title` field. -/
def itemTitleOf (item : JValue) : Option JValue := jsChain (some item) "title"

/-- The claim's counting predicate: both `id` and `create_time` are
present. -/
def claimQualItem (item : JValue) : Bool :=
  (itemIdOf item).isSome && (itemCtOf item).isSome

/-- The key under which a qualifying item's entry is stored. -/
def itemIdStrOf (item : JValue) : String :=
  match itemIdOf item with
  | some (.str s) => s
  | _ => ""

/-- The claim's "the field's value, null when absent": `none` encodes
null, so an absent or null field maps to `none` and a present value is
kept. -/
def valueOrNull (o : Option JValue) : Option JValue :=
  match o with
  | some .null => none
  | o => o

/-- A well-formed list item: an object whose `id` and `create_time` are
absent or non-empty strings and whose `update_time` and `title` are
absent, null, or non-empty strings. -/
def wfItem (item : JValue) : Bool :=
  match item with
  | .obj fs =>
    (match lookupField fs "id" with
     | none => true
     | some (.str s) => s ≠ ""
     | some _ => false) &&
    (match lookupField fs "create_time" with
     | none => true
     | some (.str s) => s ≠ ""
     | some _ => false) &&
    (match lookupField fs "update_time" with
     | none => true
     | some .null => true
     | some (.str s) => s ≠ ""
     | some _ => false) &&
    (match lookupField fs "title" with
     | none => true
     | some .null => true
     | some (.str s) => s ≠ ""
     | some _ => false)
  | _ => false

/-- The items of a list response body. -/
def listItems (data : JValue) : List JValue :=
  match jsChain (some data) "items" with
  | some (.arr xs) => xs
  | _ => []

/-- The ids of the qualifying items, in order. -/
def qualItemIdList (xs : List JValue) : List String :=
  xs.filterMap (fun it => if claimQualItem it then some (itemIdStrOf it) else none)

/-- A well-formed conversation-list response body: its `items` member
is an array of well-formed items with pairwise distinct qualifying
ids. -/
def WFList (data : JValue) : Bool :=
  match jsChain (some data) "items" with
  | some (.arr xs) => xs.all wfItem && strNodup (qualItemIdList xs)
  | _ => false

/-- The entry the list extraction loop produces for one item, stated
intrinsically. -/
def listGoodEntry (item : JValue) : Option (String × ConversationTimestamp) :=
  if claimQualItem item then
    some (itemIdStrOf item,
      { createTime := (itemCtOf item).getD .null,
        updateTime := jsOrNull (itemUtOf item),
        title := jsOrNull (itemTitleOf item) })
  else none

theorem listItemEntry_of_wf (item : JValue) (h : wfItem item = true) :
    listItemEntry item = .ok (listGoodEntry item) := by
  cases item with
  | obj fs =>
    simp only [wfItem, Bool.and_eq_true] at h
    obtain ⟨⟨⟨h1, h2⟩, h3⟩, h4⟩ := h
    cases hid : lookupField fs "id" with
    | none =>
      simp [listItemEntry, jsMember, hid, jsTruthyOpt, listGoodEntry, claimQualItem,
        itemIdOf, jsChain]
    | some idv =>
      rw [hid] at h1
      cases idv with
      | str s =>
        have hs : ¬ s = "" := by simpa using h1
        cases hct : lookupField fs "create_time" with
        | none =>
          simp [listItemEntry, jsMember, hid, hct, jsTruthyOpt, jsTruthy, hs,
            listGoodEntry, claimQualItem, itemIdOf, itemCtOf, jsChain]
        | some ctv =>
          rw [hct] at h2
          cases ctv with
          | str ct =>
            have hcts : ¬ ct = "" := by simpa using h2
            simp [listItemEntry, jsMember, hid, hct, jsTruthyOpt, jsTruthy, hs, hcts,
              listGoodEntry, claimQualItem, itemIdOf, itemCtOf, itemUtOf, itemTitleOf,
              jsChain, jsPropKey, itemIdStrOf]
          | null => cases h2
          | bool b => cases h2
          | num n => cases h2
          | arr xs => cases h2
          | obj os => cases h2
      | null => cases h1
      | bool b => cases h1
      | num n => cases h1
      | arr xs => cases h1
      | obj os => cases h1
  | null => cases h
  | bool b => cases h
  | num n => cases h
  | str s => cases h
  | arr xs => cases h

theorem jsOrNull_itemUtOf_of_wf (item : JValue) (h : wfItem item = true) :
    jsOrNull (itemUtOf item) = valueOrNull (itemUtOf item) := by
  cases item with
  | obj fs =>
    simp only [wfItem, Bool.and_eq_true] at h
    obtain ⟨⟨⟨h1, h2⟩, h3⟩, h4⟩ := h
    cases hut : lookupField fs "update_time" with
    | none => simp [itemUtOf, jsChain, hut, jsOrNull, jsTruthyOpt, valueOrNull]
    | some utv =>
      rw [hut] at h3
      cases utv with
      | null => simp [itemUtOf, jsChain, hut, jsOrNull, jsTruthyOpt, jsTruthy, valueOrNull]
      | str u =>
        have hu : ¬ u = "" := by simpa using h3
        simp [itemUtOf, jsChain, hut, jsOrNull, jsTruthyOpt, jsTruthy, hu, valueOrNull]
      | bool b => cases h3
      | num n => cases h3
      | arr xs => cases h3
      | obj os => cases h3
  | null => cases h
  | bool b => cases h
  | num n => cases h
  | str s => cases h
  | arr xs => cases h

theorem jsOrNull_itemTitleOf_of_wf (item : JValue) (h : wfItem item = true) :
    jsOrNull (itemTitleOf item) = valueOrNull (itemTitleOf item) := by
  cases item with
  | obj fs =>
    simp only [wfItem, Bool.and_eq_true] at h
    obtain ⟨⟨⟨h1, h2⟩, h3⟩, h4⟩ := h
    cases htt : lookupField fs "title" with
    | none => simp [itemTitleOf, jsChain, htt, jsOrNull, jsTruthyOpt, valueOrNull]
    | some ttv =>
      rw [htt] at h4
      cases ttv with
      | null => simp [itemTitleOf, jsChain, htt, jsOrNull, jsTruthyOpt, jsTruthy, valueOrNull]
      | str u =>
        have hu : ¬ u = "" := by simpa using h4
        simp [itemTitleOf, jsChain, htt, jsOrNull, jsTruthyOpt, jsTruthy, hu, valueOrNull]
      | bool b => cases h4
      | num n => cases h4
      | arr xs => cases h4
      | obj os => cases h4
  | null => cases h
  | bool b => cases h
  | num n => cases h
  | str s => cases h
  | arr xs => cases h

theorem isSome_listGoodEntry (item : JValue) :
    (listGoodEntry item).isSome = claimQualItem item := by
  by_cases hq : claimQualItem item <;> simp [listGoodEntry, hq]

theorem map_fst_filterMap_listGoodEntry (xs : List JValue) :
    ((xs.filterMap listGoodEntry).map Prod.fst) = qualItemIdList xs := by
  induction xs with
  | nil => rfl
  | cons it t ih =>
    by_cases hq : claimQualItem it
    · simp only [List.filterMap_cons, listGoodEntry, hq, if_pos, qualItemIdList] at ih ⊢
      simp [ih, qualItemIdList]
    · simp only [List.filterMap_cons, listGoodEntry, hq, if_neg, qualItemIdList] at ih ⊢
      simp [ih, qualItemIdList, hq]

/-- C4: on a well-formed conversation-list body, extraction produces
exactly one `ConversationTimestamp` per item with both `id` and
`create_time` present (the loop counter agrees), and each such item's
entry is keyed by its id, carries its `create_time`, and carries
`update_time` and `title` with null standing in for an absent value. -/
theorem c4_list_extraction (data : JValue) (h : WFList data = true) :
    ∃ entries cnt,
      extractConversationTimestamps data = .ok (entries, cnt) ∧
      cnt = (listItems data).countP claimQualItem ∧
      entries.length = (listItems data).countP claimQualItem ∧
      ∀ it ∈ listItems data, ∀ s ct, itemIdOf it = some (JValue.str s) →
        itemCtOf it = some ct →
        lookupA s entries =
          some ⟨ct, valueOrNull (itemUtOf it), valueOrNull (itemTitleOf it)⟩ := by
  unfold WFList at h
  cases hitems : jsChain (some data) "items" with
  | none => rw [hitems] at h; cases h
  | some m =>
    rw [hitems] at h
    cases m with
    | arr xs =>
      obtain ⟨hall, hnd⟩ := (Bool.and_eq_true _ _).mp h
      have hwf : ∀ it ∈ xs, wfItem it = true := fun it hit =>
        (List.all_eq_true.mp hall) it hit
      have hxs : listItems data = xs := by
        unfold listItems
        rw [hitems]
      have hext : extractConversationTimestamps data =
          extractLoop listItemEntry xs [] 0 := by
        unfold extractConversationTimestamps
        rw [hitems]
      have hnd' : strNodup (((xs.filterMap listGoodEntry).map Prod.fst)) = true := by
        rw [map_fst_filterMap_listGoodEntry]
        exact hnd
      have hloop := extractLoop_spec listItemEntry listGoodEntry xs [] 0
        (fun it hit => listItemEntry_of_wf it (hwf it hit))
        (fun a _ k v _ => rfl)
        hnd'
      refine ⟨xs.filterMap listGoodEntry, 0 + (xs.filterMap listGoodEntry).length,
        ?_, ?_, ?_, ?_⟩
      · rw [hext, hloop]
        simp
      · rw [hxs, Nat.zero_add, length_filterMap_eq_countP]
        exact countP_ext _ _ xs (fun it => isSome_listGoodEntry it)
      · rw [hxs, length_filterMap_eq_countP]
        exact countP_ext _ _ xs (fun it => isSome_listGoodEntry it)
      · rw [hxs]
        intro it hit s ct hid hct
        have hq : claimQualItem it = true := by
          unfold claimQualItem
          rw [hid, hct]
          rfl
        have hgent : listGoodEntry it =
            some (s, ⟨ct, valueOrNull (itemUtOf it), valueOrNull (itemTitleOf it)⟩) := by
          unfold listGoodEntry
          rw [if_pos hq, show itemIdStrOf it = s from by simp [itemIdStrOf, hid], hct,
            jsOrNull_itemUtOf_of_wf it (hwf it hit),
            jsOrNull_itemTitleOf_of_wf it (hwf it hit)]
          simp
        exact lookupA_filterMap_of_mem listGoodEntry xs hnd' it hit s _ hgent
    | null => cases h
    | bool b => cases h
    | num n => cases h
    | str s => cases h
    | obj os => cases h

/-- A concrete well-formed list body (the spec's own example). -/
def sampleListBody : JValue :=
  .obj [("items", .arr [.obj [("id", .str "c1"),
    ("create_time", .str "2024-01-01T00:00:00Z")]])]

/-- C4 witness: the theorem applied to the spec's example body. -/
theorem c4_list_extraction_witness :
    ∃ entries cnt,
      extractConversationTimestamps sampleListBody = .ok (entries, cnt) ∧
      cnt = (listItems sampleListBody).countP claimQualItem ∧
      entries.length = (listItems sampleListBody).countP claimQualItem ∧
      ∀ it ∈ listItems sampleListBody, ∀ s ct, itemIdOf it = some (JValue.str s) →
        itemCtOf it = some ct →
        lookupA s entries =
          some ⟨ct, valueOrNull (itemUtOf it), valueOrNull (itemTitleOf it)⟩ :=
  c4_list_extraction sampleListBody (by decide)
